import Mathlib

/-!
Formal model of the StirrupJS agent execution core.

This file gives a shallow embedding, in Lean 4, of the agent turn loop
(`Agent.run` / `Agent.step` / `Agent.runTool` / `Agent.summarizeMessages`),
the metadata aggregation (`aggregateMetadata`, `ToolUseCountMetadata`), and
the LIFO disposal stack (`AsyncDisposableStack.dispose`), together with
theorems about the behaviour of those functions.

Modelling conventions:
* Message `content` (the `string | ContentBlock[]` union) is modelled as a
  `String`: the core treats it as opaque and never interprets block
  semantics.
* A zod parameter schema together with `parseToolCallArguments` (trim,
  empty string as empty object, `JSON.parse`, then `schema.parse`) is
  modelled as a single function `String → Option PV` from the raw argument
  string to the validated parameters: `none` models a thrown parse or
  validation error anywhere on that path.
* Tool executors return `Except String ToolResult`: `.error` models a
  thrown or rejected handler.
* The model client contract `generate` returns
  `Except AgentError AssistantMessage`; `AgentError.contextOverflow`
  models `ContextOverflowError`.
* `Map<string, BaseTool>` registries are modelled as association lists
  with unique keys (a JS `Map` snapshot); iteration order is list order,
  matching `Map` insertion order.
* The floating-point fraction `totalTokens / maxTokens` is modelled with
  exact rational arithmetic.
-/

namespace Stirrup

/-- Tool call requested by the assistant (source `ToolCallSchema`):
`name`, `arguments` as a raw JSON string, optional call id. -/
structure ToolCall where
  name : String
  arguments : String
  toolCallId : Option String
deriving DecidableEq, Repr

/-- Token usage statistics (source `TokenUsageSchema`). -/
structure TokenUsage where
  input : Nat
  output : Nat
  reasoning : Option Nat
deriving DecidableEq, Repr

/-- Chat message union over the four roles (source `ChatMessageSchema`,
a discriminated union on `role`). -/
inductive ChatMessage where
  | system (content : String)
  | user (content : String)
  | assistant (content : String) (toolCalls : Option (List ToolCall)) (tokenUsage : Option TokenUsage)
  | tool (content : String) (toolCallId : String) (name : String) (argsWasValid : Bool)
deriving DecidableEq, Repr

/-- Assistant message as returned by the model client
(source `AssistantMessageSchema` without the constant `role` tag). -/
structure AssistantMessage where
  content : String
  toolCalls : Option (List ToolCall)
  tokenUsage : Option TokenUsage
deriving DecidableEq, Repr

/-- Tool execution result message (source `ToolMessageSchema` without the
constant `role` tag). -/
structure ToolMessage where
  content : String
  toolCallId : String
  name : String
  argsWasValid : Bool
deriving DecidableEq, Repr

/-- View an `AssistantMessage` as a `ChatMessage`. -/
def ChatMessage.ofAssistant (m : AssistantMessage) : ChatMessage :=
  .assistant m.content m.toolCalls m.tokenUsage

/-- View a `ToolMessage` as a `ChatMessage`. -/
def ChatMessage.ofTool (m : ToolMessage) : ChatMessage :=
  .tool m.content m.toolCallId m.name m.argsWasValid

/-- Is this message an assistant message? (used by `summarizeMessages`
via `findIndex((m) => m.role === 'assistant')`). -/
def isAssistant : ChatMessage → Bool
  | .assistant .. => true
  | _ => false

/-! ## Metadata system (source `src/core/models.ts`) -/

/-- Runtime metadata values that can appear in the per-tool collections.
`tokenUsage` models `TokenUsageMetadata`, `toolUseCount` models
`ToolUseCountMetadata` (both implement the `Addable` protocol, i.e. have
an `add` property); `raw` models any value without an `add` property. -/
inductive MetaVal where
  | tokenUsage (input output reasoning : Nat)
  | toolUseCount (numUses : Nat)
  | raw (payload : String)
deriving DecidableEq, Repr

/-- Does the value implement the `Addable` protocol? Models the source's
duck-typed check `'add' in firstValue`. -/
def MetaVal.hasAdd : MetaVal → Bool
  | .tokenUsage .. => true
  | .toolUseCount _ => true
  | .raw _ => false

/-- The `add` method of the addable metadata classes:
`TokenUsageMetadata.add` sums the three counters, `ToolUseCountMetadata.add`
sums `numUses`. The source never calls `add` on operands of different
classes (dynamic field access there would produce JS `NaN` arithmetic);
those unreachable cases are left returning the left operand and are not
used by any theorem. -/
def MetaVal.add : MetaVal → MetaVal → MetaVal
  | .tokenUsage i o r, .tokenUsage i' o' r' => .tokenUsage (i + i') (o + o') (r + r')
  | .toolUseCount a, .toolUseCount b => .toolUseCount (a + b)
  | a, _ => a

/-- `TokenUsageMetadata.fromTokenUsage`: missing `reasoning` becomes 0. -/
def TokenUsageMetadata.fromTokenUsage (usage : TokenUsage) : MetaVal :=
  .tokenUsage usage.input usage.output (usage.reasoning.getD 0)

/-- An entry of the aggregated-metadata map: either one folded addable
value, or the ordered list of collected non-addable values. -/
inductive AggValue where
  | one (v : MetaVal)
  | many (vs : List MetaVal)
deriving DecidableEq, Repr

/-- The per-run metadata record: tool name (and `token_usage`) to the
ordered list of collected values.  Models the JS object
`Record<string, unknown[]>` as an association list in key insertion
order. -/
abbrev Metadata := List (String × List MetaVal)

/-- Key prefixing in `aggregateMetadata`:
`prefix ? prefix + '.' + key : key` (empty string is falsy). -/
def fullKey (pfx key : String) : String :=
  if pfx = "" then key else pfx ++ "." ++ key

/-- One entry of `aggregateMetadata`: empty collections are skipped
(`continue`); if the first value is addable the values are folded via
repeated `add` in list order; otherwise the list is kept as is. -/
def aggregateEntry : List MetaVal → Option AggValue
  | [] => none
  | v :: rest =>
    if v.hasAdd then some (.one (rest.foldl MetaVal.add v))
    else some (.many (v :: rest))

/-- Source `aggregateMetadata(metadata, prefix)`: iterate the record in
key order, skip empty collections, fold addable collections via `add`,
keep non-addable collections as arrays. -/
def aggregateMetadata (metadata : Metadata) (pfx : String) : List (String × AggValue) :=
  metadata.filterMap fun p => (aggregateEntry p.2).map fun a => (fullKey pfx p.1, a)

/-! ## AsyncDisposableStack (source `utils/async-stack.ts`) -/

/-- One entry of the disposal stack: an identifying label and the
observable outcome of invoking its cleanup callback (`.error` models a
throwing disposal). -/
structure DisposeEntry where
  id : String
  result : Except String Unit
deriving Repr

/-- What `dispose` ends up doing with the collected errors: nothing,
rethrow the single error as is, or wrap several in an `AggregateError`. -/
inductive DisposeOutcome where
  | ok
  | thrown (e : String)
  | aggregate (es : List String) (msg : String)
deriving DecidableEq, Repr

/-- The `while (stack.length > 0)` loop of `dispose`, applied to the
stack already reversed into pop order: invoke each cleanup, record the
invocation, and collect (rather than propagate) its error. Returns the
invocation order and the collected error messages in that order. -/
def disposeSteps : List DisposeEntry → List String × List String
  | [] => ([], [])
  | e :: rest =>
    let (invoked, errors) := disposeSteps rest
    (e.id :: invoked,
     (match e.result with
      | .error m => [m]
      | .ok _ => []) ++ errors)

/-- After the loop: no errors means a normal return, exactly one error is
rethrown as is, several are wrapped in one `AggregateError`. -/
def disposeOutcome : List String → DisposeOutcome
  | [] => .ok
  | [e] => .thrown e
  | es => .aggregate es (toString es.length ++ " errors occurred during disposal")

/-- Source `AsyncDisposableStack.dispose`: a second call (disposed flag
set) returns immediately; otherwise pop and invoke every cleanup in
reverse order of acquisition, collecting errors, and raise them only
after the stack is empty. Returns the invocation order and the raised
outcome. -/
def AsyncDisposableStack.dispose (disposed : Bool) (stack : List DisposeEntry) :
    List String × DisposeOutcome :=
  if disposed then ([], .ok)
  else
    let (invoked, errors) := disposeSteps stack.reverse
    (invoked, disposeOutcome errors)

/-- The disposal errors of a stack, in pop (reverse-of-acquisition)
order; specification-side helper. -/
def disposeFailures (stack : List DisposeEntry) : List String :=
  stack.reverse.filterMap fun e =>
    match e.result with
    | .error m => some m
    | .ok _ => none

/-! ## Tools, client and agent configuration (source `src/core/models.ts`,
`src/core/agent.ts`, `src/constants.ts`, `src/prompts/index.ts`) -/

/-- Result returned by a tool executor (source `ToolResult`). -/
structure ToolResult where
  content : String
  metadata : Option MetaVal
deriving Repr

/-- A registered tool (source `BaseTool`), over the validated-parameter
type `PV`.  `parameters` is the nullable schema, modelled as a parse
function on the raw argument string (see the file header); the executor
receives `none` when the schema is `null` (JS `undefined` params). -/
structure BaseTool (PV : Type) where
  name : String
  description : String
  parameters : Option (String → Option PV)
  executor : Option PV → Except String ToolResult

/-- Errors that can propagate out of the agent core.
`contextOverflow` models `ContextOverflowError`, `clientError` any other
model-client failure. -/
inductive AgentError where
  | contextOverflow (msg : String)
  | clientError (msg : String)
deriving DecidableEq, Repr

/-- The model-client generation contract (source `LLMClient`):
`generate(messages, tools)` plus the read-only `modelSlug` and
`maxTokens`. -/
structure LLMClient (PV : Type) where
  generate : List ChatMessage → List (String × BaseTool PV) → Except AgentError AssistantMessage
  modelSlug : String
  maxTokens : Nat

/-- The reserved finish tool name (source `FINISH_TOOL_NAME`). -/
def FINISH_TOOL_NAME : String := "finish"

/-- Default summarization cutoff (source `CONTEXT_SUMMARIZATION_CUTOFF`). -/
def CONTEXT_SUMMARIZATION_CUTOFF : Rat := (7 : Rat) / 10

/-- Source `BASE_SYSTEM_PROMPT`. -/
def BASE_SYSTEM_PROMPT : String :=
  "You are an AI agent with access to tools to help complete tasks.\n\nYou should:\n- Use tools when they would help accomplish the task\n- Think step by step and explain your reasoning\n- Call the finish tool when the task is complete\n\nAvailable tools will be provided to you. Use them wisely to accomplish your goals."

/-- Source `MESSAGE_SUMMARIZER_PROMPT`. -/
def MESSAGE_SUMMARIZER_PROMPT : String :=
  "You are summarizing a conversation between a user and an AI assistant.\n\nYour task is to create a concise summary that preserves the key information:\n- The original task or goal\n- Important findings or results\n- Current progress and state\n- Any critical context needed to continue\n\nKeep the summary focused and relevant. Omit unnecessary details."

/-- Source `MESSAGE_SUMMARIZER_BRIDGE_TEMPLATE`: the fixed bridge
template wrapping the summary text. -/
def MESSAGE_SUMMARIZER_BRIDGE_TEMPLATE (summary : String) : String :=
  "[Previous conversation summarized below]\n\n" ++ summary ++ "\n\n[Resuming conversation]"

/-- An agent after `initialize` has completed: the fields of the `Agent`
class that drive the turn loop.  `activeTools` is the populated
`Map<string, BaseTool>` registry; per the end of `initialize`, when
`finishTool` is present it has been registered under `FINISH_TOOL_NAME`
(stated as a hypothesis where needed).  `uploadedFilePaths` is the
session state consulted by `buildSystemPrompt` (skills metadata, an
external collaborator, is not modelled). -/
structure Agent (PV : Type) where
  client : LLMClient PV
  name : String
  maxTurns : Nat
  systemPrompt : Option String
  finishTool : Option (BaseTool PV)
  contextSummarizationCutoff : Rat
  activeTools : List (String × BaseTool PV)
  uploadedFilePaths : List String

variable {PV : Type}

/-- `Map.get` on the registry. -/
def lookupTool (tools : List (String × BaseTool PV)) (n : String) : Option (BaseTool PV) :=
  (tools.find? fun p => p.1 = n).map Prod.snd

/-- `Map.has` on the registry. -/
def hasTool (tools : List (String × BaseTool PV)) (n : String) : Bool :=
  (lookupTool tools n).isSome

/-- Source `Agent.buildSystemPrompt` (the skills section, produced by the
external `formatSkillsSection`, is not modelled). -/
def buildSystemPrompt (ag : Agent PV) : String :=
  let prompt := BASE_SYSTEM_PROMPT
  let prompt := prompt ++
    (if hasTool ag.activeTools "user_input" then
      "\n\nYou have access to the user_input tool which allows you to ask the user questions when you need clarification or are uncertain about something."
    else
      "\n\nYou are not able to interact with the user during the task.")
  let prompt :=
    if ag.uploadedFilePaths.isEmpty then prompt
    else prompt ++ "\n\nUploaded files:\n" ++
      String.join (ag.uploadedFilePaths.map fun p => "- " ++ p ++ "\n")
  match ag.systemPrompt with
  | some sp => prompt ++ "\n\n" ++ sp
  | none => prompt

/-! ## Tool dispatch (source `Agent.runTool`) -/

/-- Does the metadata record already have this key? -/
def metaHas (md : Metadata) (k : String) : Bool :=
  md.any fun p => p.1 = k

/-- `if (!runMetadata[k]) runMetadata[k] = []`: add an empty collection
for a new key (JS object keys append in insertion order). -/
def metaInit (md : Metadata) (k : String) : Metadata :=
  if metaHas md k then md else md ++ [(k, [])]

/-- `runMetadata[k]?.push(v)`: append to the collection when the key is
present, do nothing otherwise. -/
def metaPush (md : Metadata) (k : String) (v : MetaVal) : Metadata :=
  md.map fun p => if p.1 = k then (p.1, p.2 ++ [v]) else p

/-- The tail of `runTool` from the `tool:start` emit on: invoke the
executor with the validated parameters; a thrown error is converted to an
`argsWasValid := true` tool message describing the failure; on success the
result metadata (if any) is pushed into the per-tool collection. -/
def runToolExec (tool : BaseTool PV) (params : Option PV) (toolCall : ToolCall)
    (md : Metadata) : ToolMessage × Metadata :=
  match tool.executor params with
  | .error e =>
    ({ content := "Error executing tool: " ++ e,
       toolCallId := toolCall.toolCallId.getD "",
       name := toolCall.name, argsWasValid := true }, md)
  | .ok result =>
    let md := match result.metadata with
      | some m => metaPush md toolCall.name m
      | none => md
    ({ content := result.content,
       toolCallId := toolCall.toolCallId.getD "",
       name := toolCall.name, argsWasValid := true }, md)

/-- Source `Agent.runTool`: look up the tool (unknown name gives an
`argsWasValid := false` error message), ensure the metadata key exists,
validate the arguments against the schema (failure gives an
`argsWasValid := false` generic message), then run the executor.  Total:
every branch returns a tool message. -/
def runTool (tools : List (String × BaseTool PV)) (toolCall : ToolCall)
    (runMetadata : Metadata) : ToolMessage × Metadata :=
  match lookupTool tools toolCall.name with
  | none =>
    ({ content := "Error: \x27" ++ toolCall.name ++ "\x27 is not a valid tool",
       toolCallId := toolCall.toolCallId.getD "",
       name := toolCall.name, argsWasValid := false }, runMetadata)
  | some tool =>
    let md := metaInit runMetadata toolCall.name
    match tool.parameters with
    | some parse =>
      match parse toolCall.arguments with
      | none =>
        ({ content := "Tool arguments are not valid",
           toolCallId := toolCall.toolCallId.getD "",
           name := toolCall.name, argsWasValid := false }, md)
      | some v => runToolExec tool (some v) toolCall md
    | none => runToolExec tool none toolCall md

/-- The sequential tool loop of `Agent.step`: dispatch each tool call in
list order, threading the metadata record, and collect exactly one tool
message per call. -/
def runTools (tools : List (String × BaseTool PV)) :
    List ToolCall → Metadata → List ToolMessage × Metadata
  | [], md => ([], md)
  | tc :: rest, md =>
    let r := runTool tools tc md
    let rs := runTools tools rest r.2
    (r.1 :: rs.1, rs.2)

/-! ## The turn loop (source `Agent.step`, `Agent.run`,
`Agent.summarizeMessages`) -/

/-- The token-usage recording at the top of `Agent.step`:
`runMetadata['token_usage']?.push(TokenUsageMetadata.fromTokenUsage(...))`
when the assistant message carries usage. -/
def recordTokenUsage (assistantMessage : AssistantMessage) (md : Metadata) : Metadata :=
  match assistantMessage.tokenUsage with
  | some tu => metaPush md "token_usage" (TokenUsageMetadata.fromTokenUsage tu)
  | none => md

/-- Source `Agent.step`: one generation call, token-usage recording, then
the sequential tool loop. -/
def step (ag : Agent PV) (messages : List ChatMessage) (runMetadata : Metadata) :
    Except AgentError (AssistantMessage × List ToolMessage × Metadata) := do
  let assistantMessage ← ag.client.generate messages ag.activeTools
  let md := recordTokenUsage assistantMessage runMetadata
  let r := runTools ag.activeTools (assistantMessage.toolCalls.getD []) md
  .ok (assistantMessage, r.1, r.2)

/-- The finish-detection scan of `Agent.run`: walk the turn's tool calls;
at the first call named `FINISH_TOOL_NAME` (with a finish tool
configured), parse its arguments against the finish tool's schema — on
success record them and stop; on a validation error continue scanning; a
`null` schema computes `undefined` parameters and stops the scan with
nothing recorded. -/
def detectFinish (finishTool : Option (BaseTool PV)) : List ToolCall → Option PV
  | [] => none
  | toolCall :: rest =>
    match finishTool with
    | some f =>
      if toolCall.name = FINISH_TOOL_NAME then
        match f.parameters with
        | some parse =>
          match parse toolCall.arguments with
          | some v => some v
          | none => detectFinish (some f) rest
        | none => none
      else detectFinish (some f) rest
    | none => detectFinish none rest

/-- The index of the first assistant message
(`messages.findIndex((m) => m.role === 'assistant')`, with JS `-1`
modelled as `none`). -/
def firstAssistantIdx : List ChatMessage → Option Nat
  | [] => none
  | m :: rest =>
    if isAssistant m then some 0 else (firstAssistantIdx rest).map (· + 1)

/-- The split at the top of `summarizeMessages`: task context (everything
strictly before the first assistant message when it sits at a positive
index, otherwise just the first message) and the tail to summarize. -/
def taskContextSplit (messages : List ChatMessage) :
    List ChatMessage × List ChatMessage :=
  match firstAssistantIdx messages with
  | some i =>
    if 0 < i then (messages.take i, messages.drop i)
    else (messages.take 1, messages.drop 1)
  | none => (messages.take 1, messages.drop 1)

/-- Source `Agent.summarizeMessages`: split at the first assistant
message (falling back to a split after the first message), send the tail
with the summarizer prompt to the client as a tool-less generation, and
return the preserved task context followed by one user bridge message
wrapping the summary. -/
def summarizeMessages (ag : Agent PV) (messages : List ChatMessage) :
    Except AgentError (List ChatMessage) := do
  let summaryResponse ← ag.client.generate
    (ChatMessage.system MESSAGE_SUMMARIZER_PROMPT ::
      ((taskContextSplit messages).2 ++ [ChatMessage.user "Please provide a concise summary."]))
    []
  .ok ((taskContextSplit messages).1 ++
    [ChatMessage.user (MESSAGE_SUMMARIZER_BRIDGE_TEMPLATE summaryResponse.content)])

/-- The mutable state of one iteration of the `for (turn ...)` loop in
`Agent.run`: the active message list, the group being accumulated, the
sealed groups, and the metadata record. -/
structure LoopState where
  currentMessages : List ChatMessage
  currentGroup : List ChatMessage
  messageHistory : List (List ChatMessage)
  runMetadata : Metadata
deriving DecidableEq, Repr

/-- Outcome of one loop iteration: either the finish signal was detected
(the `break` with `finishParams` set, group already sealed) or the loop
proceeds to the next turn. -/
inductive TurnOutcome (PV : Type) where
  | finished (finishParams : PV) (st : LoopState)
  | next (st : LoopState)

/-- The messages a turn appends to the active list and to the current
group: the assistant message followed by its tool messages. -/
def turnAppend (assistantMessage : AssistantMessage) (toolMessages : List ToolMessage) :
    List ChatMessage :=
  ChatMessage.ofAssistant assistantMessage :: toolMessages.map ChatMessage.ofTool

/-- One iteration of the turn loop in `Agent.run`: run `step`, append the
assistant message and the tool messages to the group and to the active
list, detect the finish signal (sealing the group and stopping on
success), otherwise check the summarization cutoff and, when met, seal
the group and replace the active list with the summarized one. -/
def runTurn (ag : Agent PV) (st : LoopState) : Except AgentError (TurnOutcome PV) := do
  let sres ← step ag st.currentMessages st.runMetadata
  let assistantMessage := sres.1
  let toolMessages := sres.2.1
  let md := sres.2.2
  let appended := turnAppend assistantMessage toolMessages
  let group := st.currentGroup ++ appended
  let msgs := st.currentMessages ++ appended
  match detectFinish ag.finishTool (assistantMessage.toolCalls.getD []) with
  | some finishParams =>
    .ok (.finished finishParams
      { currentMessages := msgs, currentGroup := group,
        messageHistory := st.messageHistory ++ [group], runMetadata := md })
  | none =>
    match assistantMessage.tokenUsage with
    | some tu =>
      let totalTokens := tu.input + tu.output
      let percentUsed : Rat := (totalTokens : Rat) / (ag.client.maxTokens : Rat)
      if ag.contextSummarizationCutoff ≤ percentUsed then do
        let summarized ← summarizeMessages ag msgs
        .ok (.next { currentMessages := summarized, currentGroup := summarized,
                     messageHistory := st.messageHistory ++ [group], runMetadata := md })
      else
        .ok (.next { currentMessages := msgs, currentGroup := group,
                     messageHistory := st.messageHistory, runMetadata := md })
    | none =>
      .ok (.next { currentMessages := msgs, currentGroup := group,
                   messageHistory := st.messageHistory, runMetadata := md })

/-- The bounded turn loop (`for (let turn = 0; turn < this.maxTurns; ...)`). -/
def runLoop (ag : Agent PV) : Nat → LoopState → Except AgentError (Option PV × LoopState)
  | 0, st => .ok (none, st)
  | fuel + 1, st => do
    match ← runTurn ag st with
    | .finished finishParams st' => .ok (some finishParams, st')
    | .next st' => runLoop ag fuel st'

/-- Result of `Agent.run` (source `AgentRunResult`). -/
structure RunResult (PV : Type) where
  finishParams : Option PV
  messageHistory : List (List ChatMessage)
  runMetadata : List (String × AggValue)
deriving DecidableEq, Repr

/-- The outgoing message list built at the start of `run`: the system
prompt followed by the initial messages (a string task becomes a single
user message at the call site). -/
def initialMessages (ag : Agent PV) (initMessages : List ChatMessage) : List ChatMessage :=
  ChatMessage.system (buildSystemPrompt ag) :: initMessages

/-- The state entering the turn loop: active list and group are the full
initial message list; the metadata record starts with `token_usage` and
one empty collection per registered tool name. -/
def initLoopState (ag : Agent PV) (initMessages : List ChatMessage) : LoopState :=
  let allMessages := initialMessages ag initMessages
  { currentMessages := allMessages, currentGroup := allMessages,
    messageHistory := [],
    runMetadata := ("token_usage", []) :: ag.activeTools.map fun p => (p.1, []) }

/-- Source `Agent.run` (after `initialize`, with no abort signal): run
the turn loop up to `maxTurns`; when `maxTurns` is exhausted without a
finish signal the last group is sealed (if non-empty) and the result is
returned with `finishParams` unset — not an error.  Errors from the
client propagate (the `catch` in the source re-throws them after an
event emission). -/
def Agent.run (ag : Agent PV) (initMessages : List ChatMessage) :
    Except AgentError (RunResult PV) := do
  let r ← runLoop ag ag.maxTurns (initLoopState ag initMessages)
  let finishParams := r.1
  let st := r.2
  let messageHistory :=
    if finishParams.isNone && !st.currentGroup.isEmpty then
      st.messageHistory ++ [st.currentGroup]
    else st.messageHistory
  .ok { finishParams := finishParams, messageHistory := messageHistory,
        runMetadata := aggregateMetadata st.runMetadata "" }

/-! ## Specification-side helpers -/

/-- Number of assistant-role messages in a list: each executed turn
contributes exactly one, so this counts executed turns across the
sealed groups. -/
def countAssistant (l : List ChatMessage) : Nat :=
  l.countP fun m => isAssistant m

/-- The run reaches the finish signal within the given number of
remaining turns: some turn's finish scan validates the parameters `v`
(`runTurn` returns `.finished`). -/
inductive ReachesFinish (ag : Agent PV) : Nat → LoopState → PV → Prop where
  | here {fuel : Nat} {st st' : LoopState} {v : PV} :
      runTurn ag st = .ok (.finished v st') → ReachesFinish ag (fuel + 1) st v
  | later {fuel : Nat} {st st' : LoopState} {v : PV} :
      runTurn ag st = .ok (.next st') → ReachesFinish ag fuel st' v →
      ReachesFinish ag (fuel + 1) st v

/-! ## Concrete instances used to exercise the model -/

/-- A concrete validated-parameter shape: a finish tool requiring an
object with a string `reason`. -/
structure ReasonParams where
  reason : String
deriving DecidableEq, Repr

/-- The raw argument string `{"reason":"done"}`. -/
def doneArgs : String := "\x7b\"reason\":\"done\"\x7d"

/-- A concrete schema instance for `z.object(\x7b reason: z.string() \x7d)`,
modelled at the argument strings exercised here: accepts exactly
`{"reason":"done"}`. -/
def reasonSchema : String → Option ReasonParams :=
  fun raw => if raw = doneArgs then some (ReasonParams.mk "done") else none

/-- A finish tool requiring `{reason: string}`. -/
def finishReasonTool : BaseTool ReasonParams where
  name := "finish"
  description := "Signal completion"
  parameters := some reasonSchema
  executor := fun _ => .ok { content := "Task finished", metadata := none }

/-- A no-argument tool whose handler succeeds and reports a use count. -/
def echoTool : BaseTool ReasonParams where
  name := "echo"
  description := "Echo"
  parameters := none
  executor := fun _ => .ok { content := "echoed", metadata := some (.toolUseCount 1) }

/-- A tool whose arguments validate but whose handler throws. -/
def failTool : BaseTool ReasonParams where
  name := "fail_tool"
  description := "Always throws"
  parameters := some reasonSchema
  executor := fun _ => .error "boom"

/-- A finish tool with a `null` parameter schema (takes no arguments). -/
def nullFinishTool : BaseTool ReasonParams where
  name := "finish"
  description := "Signal completion without arguments"
  parameters := none
  executor := fun _ => .ok { content := "Task finished", metadata := none }

/-- A client stub that immediately calls the finish tool with
`{"reason":"done"}`. -/
def finishClient : LLMClient ReasonParams where
  generate := fun _ _ =>
    .ok { content := "", toolCalls := some [⟨"finish", doneArgs, some "call-1"⟩],
          tokenUsage := none }
  modelSlug := "stub-model"
  maxTokens := 1000

/-- Agent for the finish scenario: `maxTurns = 1`, a finish tool
requiring `{reason: string}`, and the immediately-finishing client. -/
def finishAgent : Agent ReasonParams where
  client := finishClient
  name := "tester"
  maxTurns := 1
  systemPrompt := none
  finishTool := some finishReasonTool
  contextSummarizationCutoff := CONTEXT_SUMMARIZATION_CUTOFF
  activeTools := [("finish", finishReasonTool)]
  uploadedFilePaths := []

/-- A client stub that emits two tool calls in one turn: a valid finish
call followed by another tool call. -/
def twoCallClient : LLMClient ReasonParams where
  generate := fun _ _ =>
    .ok { content := "",
          toolCalls := some [⟨"finish", doneArgs, some "call-1"⟩, ⟨"echo", "", some "call-2"⟩],
          tokenUsage := none }
  modelSlug := "stub-model"
  maxTokens := 1000

/-- Agent whose single turn contains a finish call and a later call. -/
def twoCallAgent : Agent ReasonParams where
  client := twoCallClient
  name := "tester"
  maxTurns := 3
  systemPrompt := none
  finishTool := some finishReasonTool
  contextSummarizationCutoff := CONTEXT_SUMMARIZATION_CUTOFF
  activeTools := [("finish", finishReasonTool), ("echo", echoTool)]
  uploadedFilePaths := []

/-- A client stub that never calls any tool. -/
def quietClient : LLMClient ReasonParams where
  generate := fun _ _ => .ok { content := "hi", toolCalls := none, tokenUsage := none }
  modelSlug := "stub-model"
  maxTokens := 1000

/-- Agent that never receives a finish call. -/
def quietAgent : Agent ReasonParams where
  client := quietClient
  name := "tester"
  maxTurns := 2
  systemPrompt := none
  finishTool := none
  contextSummarizationCutoff := CONTEXT_SUMMARIZATION_CUTOFF
  activeTools := []
  uploadedFilePaths := []

/-- A client stub whose every generation call raises the
context-overflow error. -/
def overflowClient : LLMClient ReasonParams where
  generate := fun _ _ => .error (.contextOverflow "Context window exceeded")
  modelSlug := "stub-model"
  maxTokens := 1000

/-- Agent whose client overflows on the primary generation call. -/
def overflowAgent : Agent ReasonParams where
  client := overflowClient
  name := "tester"
  maxTurns := 3
  systemPrompt := none
  finishTool := some finishReasonTool
  contextSummarizationCutoff := CONTEXT_SUMMARIZATION_CUTOFF
  activeTools := [("finish", finishReasonTool)]
  uploadedFilePaths := []

/-- A client stub that answers every generation call with a fixed
summary text and no tool calls. -/
def summaryClient : LLMClient ReasonParams where
  generate := fun _ _ => .ok { content := "SUMMARY", toolCalls := none, tokenUsage := none }
  modelSlug := "stub-model"
  maxTokens := 1000

/-- Agent used to exercise `summarizeMessages` directly. -/
def summaryAgent : Agent ReasonParams where
  client := summaryClient
  name := "tester"
  maxTurns := 2
  systemPrompt := none
  finishTool := none
  contextSummarizationCutoff := CONTEXT_SUMMARIZATION_CUTOFF
  activeTools := []
  uploadedFilePaths := []

/-- A client stub that always calls the finish tool with an empty
argument string. -/
def nullFinishClient : LLMClient ReasonParams where
  generate := fun _ _ =>
    .ok { content := "", toolCalls := some [⟨"finish", "", none⟩], tokenUsage := none }
  modelSlug := "stub-model"
  maxTokens := 1000

/-- Agent whose finish tool has a `null` parameter schema and whose
client calls it on every turn. -/
def nullFinishAgent : Agent ReasonParams where
  client := nullFinishClient
  name := "tester"
  maxTurns := 2
  systemPrompt := none
  finishTool := some nullFinishTool
  contextSummarizationCutoff := CONTEXT_SUMMARIZATION_CUTOFF
  activeTools := [("finish", nullFinishTool)]
  uploadedFilePaths := []

/-- The loop state entering `twoCallAgent`'s first turn. -/
def c1state : LoopState := initLoopState twoCallAgent [ChatMessage.user "task"]

/-- The assistant message `twoCallClient` produces. -/
def c1assistant : AssistantMessage :=
  { content := "",
    toolCalls := some [⟨"finish", doneArgs, some "call-1"⟩, ⟨"echo", "", some "call-2"⟩],
    tokenUsage := none }

/-- The two tool messages dispatched for `c1assistant`, in call order. -/
def c1toolMessages : List ToolMessage :=
  [{ content := "Task finished", toolCallId := "call-1", name := "finish", argsWasValid := true },
   { content := "echoed", toolCallId := "call-2", name := "echo", argsWasValid := true }]

/-- The metadata record after `twoCallAgent`'s first turn. -/
def c1metadata : Metadata :=
  [("token_usage", []), ("finish", []), ("echo", [.toolUseCount 1])]

/-- The run result of the `maxTurns = 1` finish scenario. -/
def c2result : RunResult ReasonParams :=
  { finishParams := some (ReasonParams.mk "done"),
    messageHistory := [[ChatMessage.system (buildSystemPrompt finishAgent),
      ChatMessage.user "do the thing",
      ChatMessage.assistant "" (some [⟨"finish", doneArgs, some "call-1"⟩]) none,
      ChatMessage.tool "Task finished" "call-1" "finish" true]],
    runMetadata := [] }

/-- A message list whose first assistant message sits at index 2. -/
def c3messages : List ChatMessage :=
  [ChatMessage.system "S", ChatMessage.user "T", ChatMessage.assistant "A" none none]

/-- The summary response `summaryClient` produces. -/
def c3resp : AssistantMessage := { content := "SUMMARY", toolCalls := none, tokenUsage := none }

/-! ## Shared lemmas -/

/-- The tool message produced by a dispatch does not depend on the
metadata record threaded through it (only the record accumulates). -/
theorem runToolExec_fst_indep (tool : BaseTool PV) (params : Option PV) (tc : ToolCall)
    (md md' : Metadata) :
    (runToolExec tool params tc md).1 = (runToolExec tool params tc md').1 := by
  unfold runToolExec
  cases tool.executor params <;> simp

/-- The tool message produced by `runTool` does not depend on the
metadata record. -/
theorem runTool_fst_indep (tools : List (String × BaseTool PV)) (tc : ToolCall)
    (md md' : Metadata) :
    (runTool tools tc md).1 = (runTool tools tc md').1 := by
  cases hl : lookupTool tools tc.name with
  | none => simp [runTool, hl]
  | some tool =>
    cases hp : tool.parameters with
    | none =>
      simp only [runTool, hl, hp]
      exact runToolExec_fst_indep ..
    | some parse =>
      cases hv : parse tc.arguments with
      | none => simp [runTool, hl, hp, hv]
      | some v =>
        simp only [runTool, hl, hp, hv]
        exact runToolExec_fst_indep ..

/-- The tool loop yields exactly one tool message per tool call. -/
theorem runTools_fst_length (tools : List (String × BaseTool PV)) :
    ∀ (calls : List ToolCall) (md : Metadata),
      ((runTools tools calls md).1).length = calls.length := by
  intro calls
  induction calls with
  | nil => intro md; rfl
  | cons tc rest ih => intro md; simpa [runTools] using ih _

/-- The `i`-th tool message of the loop is the dispatch of the `i`-th
tool call. -/
theorem runTools_fst_get (tools : List (String × BaseTool PV)) :
    ∀ (calls : List ToolCall) (md : Metadata) (i : Nat)
      (h : i < calls.length) (h2 : i < ((runTools tools calls md).1).length),
      ((runTools tools calls md).1).get ⟨i, h2⟩ = (runTool tools (calls.get ⟨i, h⟩) md).1 := by
  intro calls
  induction calls with
  | nil => intro md i h h2; exact absurd h (Nat.not_lt_zero i)
  | cons tc rest ih =>
    intro md i h h2
    cases i with
    | zero => rfl
    | succ j =>
      have h' : j < rest.length := Nat.lt_of_succ_lt_succ h
      have h2' : j < ((runTools tools rest (runTool tools tc md).2).1).length := by
        rw [runTools_fst_length]; exact h'
      calc ((runTools tools (tc :: rest) md).1).get ⟨j + 1, h2⟩
          = ((runTools tools rest (runTool tools tc md).2).1).get ⟨j, h2'⟩ := rfl
        _ = (runTool tools (rest.get ⟨j, h'⟩) (runTool tools tc md).2).1 := ih _ j h' h2'
        _ = (runTool tools (rest.get ⟨j, h'⟩) md).1 := runTool_fst_indep ..

/-- Inversion for a successful `step`: the generation call succeeded with
the returned assistant message, and the tool messages and metadata are
the output of the sequential tool loop. -/
theorem step_ok_elim {ag : Agent PV} {messages : List ChatMessage} {md : Metadata}
    {am : AssistantMessage} {tms : List ToolMessage} {md₂ : Metadata}
    (h : step ag messages md = .ok (am, tms, md₂)) :
    ag.client.generate messages ag.activeTools = .ok am ∧
    runTools ag.activeTools (am.toolCalls.getD []) (recordTokenUsage am md) = (tms, md₂) := by
  unfold step at h
  cases hg : ag.client.generate messages ag.activeTools with
  | error e => rw [hg] at h; simp [Bind.bind, Except.bind] at h
  | ok am' =>
    rw [hg] at h
    simp only [Bind.bind, Except.bind, Except.ok.injEq, Prod.mk.injEq] at h
    obtain ⟨h1, h2, h3⟩ := h
    subst h1
    refine ⟨rfl, ?_⟩
    rw [← h2, ← h3]

/-- A successful `step` on a `.ok` client response, forward direction. -/
theorem step_ok_intro {ag : Agent PV} {messages : List ChatMessage} (md : Metadata)
    {am : AssistantMessage}
    (hg : ag.client.generate messages ag.activeTools = .ok am) :
    step ag messages md =
      .ok (am, (runTools ag.activeTools (am.toolCalls.getD []) (recordTokenUsage am md)).1,
           (runTools ag.activeTools (am.toolCalls.getD []) (recordTokenUsage am md)).2) := by
  unfold step
  rw [hg]
  rfl

/-- An erroring generation call makes `step` propagate the error. -/
theorem step_error {ag : Agent PV} {messages : List ChatMessage} {md : Metadata}
    {e : AgentError}
    (hg : ag.client.generate messages ag.activeTools = .error e) :
    step ag messages md = .error e := by
  unfold step
  rw [hg]
  rfl

/-- When every tool call of a turn has a name outside the registry, and
the finish tool (when configured) is registered under its reserved name,
the finish scan finds nothing. -/
theorem detectFinish_eq_none_of_unknown (ag : Agent PV) :
    ∀ (calls : List ToolCall),
      (∀ c ∈ calls, lookupTool ag.activeTools c.name = none) →
      (∀ f, ag.finishTool = some f → lookupTool ag.activeTools FINISH_TOOL_NAME = some f) →
      detectFinish ag.finishTool calls = none := by
  intro calls
  induction calls with
  | nil => intro _ _; cases ag.finishTool <;> rfl
  | cons tc rest ih =>
    intro hunk hreg
    have hrest := ih (fun c hc => hunk c (List.mem_cons_of_mem _ hc)) hreg
    cases hft : ag.finishTool with
    | none => rw [hft] at hrest; simpa [detectFinish] using hrest
    | some f =>
      have hname : tc.name ≠ FINISH_TOOL_NAME := by
        intro heq
        have h1 := hunk tc (List.mem_cons_self ..)
        rw [heq] at h1
        rw [hreg f hft] at h1
        exact Option.noConfusion h1
      rw [hft] at hrest
      simpa [detectFinish, hname] using hrest

/-- With a `null` parameter schema on the finish tool, the finish scan
never records parameters. -/
theorem detectFinish_eq_none_of_nullSchema (f : BaseTool PV) (hnull : f.parameters = none) :
    ∀ (calls : List ToolCall), detectFinish (some f) calls = none := by
  intro calls
  induction calls with
  | nil => rfl
  | cons tc rest ih =>
    by_cases hname : tc.name = FINISH_TOOL_NAME
    · simp [detectFinish, hname, hnull]
    · simpa [detectFinish, hname] using ih

/-- A found first-assistant index is within bounds. -/
theorem firstAssistantIdx_lt_length :
    ∀ {messages : List ChatMessage} {i : Nat},
      firstAssistantIdx messages = some i → i < messages.length := by
  intro messages
  induction messages with
  | nil => intro i h; exact Option.noConfusion h
  | cons m rest ih =>
    intro i h
    unfold firstAssistantIdx at h
    by_cases ha : isAssistant m
    · simp [ha] at h
      simp [List.length_cons]
      omega
    · simp [ha] at h
      obtain ⟨j, hj, hji⟩ := h
      have := ih hj
      simp [List.length_cons]
      omega

/-- Everything strictly before the first assistant message is not an
assistant message. -/
theorem firstAssistantIdx_take :
    ∀ {messages : List ChatMessage} {i : Nat},
      firstAssistantIdx messages = some i →
      ∀ m ∈ messages.take i, isAssistant m = false := by
  intro messages
  induction messages with
  | nil => intro i _ m hm; simp at hm
  | cons hd rest ih =>
    intro i h m hm
    unfold firstAssistantIdx at h
    by_cases ha : isAssistant hd
    · simp [ha] at h
      subst h
      simp at hm
    · simp [ha] at h
      obtain ⟨j, hj, hji⟩ := h
      subst hji
      rw [List.take_succ_cons] at hm
      rcases List.mem_cons.mp hm with hm | hm
      · subst hm; exact Bool.not_eq_true _ ▸ (by simpa using ha)
      · exact ih hj m hm

/-- A list whose head is a system message has its first assistant
message (if any) at a positive index. -/
theorem firstAssistantIdx_pos_of_system_head {messages : List ChatMessage} {c : String}
    (hhead : messages.head? = some (ChatMessage.system c)) {i : Nat}
    (hidx : firstAssistantIdx messages = some i) : 0 < i := by
  cases messages with
  | nil => exact Option.noConfusion hhead
  | cons m rest =>
    have hm : m = ChatMessage.system c := by simpa using hhead
    subst hm
    unfold firstAssistantIdx at hidx
    simp [isAssistant] at hidx
    obtain ⟨j, _, hji⟩ := hidx
    omega

/-- A list containing an assistant message has a first assistant index. -/
theorem firstAssistantIdx_isSome :
    ∀ {messages : List ChatMessage},
      (∃ m ∈ messages, isAssistant m = true) →
      ∃ j, firstAssistantIdx messages = some j := by
  intro messages
  induction messages with
  | nil => intro h; obtain ⟨m, hm, _⟩ := h; simp at hm
  | cons hd rest ih =>
    intro h
    by_cases ha : isAssistant hd
    · exact ⟨0, by simp [firstAssistantIdx, ha]⟩
    · obtain ⟨m, hm, hma⟩ := h
      rcases List.mem_cons.mp hm with hm | hm
      · subst hm; exact absurd hma (by simpa using ha)
      · obtain ⟨j, hj⟩ := ih ⟨m, hm, hma⟩
        exact ⟨j + 1, by simp [firstAssistantIdx, ha, hj]⟩

/-- The pop loop of `dispose`, closed form: it invokes every entry in
list order and collects exactly the failing entries' messages in that
order. -/
theorem disposeSteps_spec :
    ∀ l : List DisposeEntry,
      disposeSteps l =
        (l.map DisposeEntry.id,
         l.filterMap fun e =>
           match e.result with
           | .error m => some m
           | .ok _ => none) := by
  intro l
  induction l with
  | nil => rfl
  | cons e rest ih =>
    unfold disposeSteps
    rw [ih]
    cases hr : e.result <;> simp [List.filterMap_cons, hr]

/-- A turn whose finish scan succeeds seals the group (with every tool
message of the turn in it) and stops the loop with the detected
parameters. -/
theorem runTurn_finished {ag : Agent PV} {st : LoopState} {am : AssistantMessage}
    {tms : List ToolMessage} {md₂ : Metadata} {v : PV}
    (hstep : step ag st.currentMessages st.runMetadata = .ok (am, tms, md₂))
    (hdet : detectFinish ag.finishTool (am.toolCalls.getD []) = some v) :
    runTurn ag st = .ok (.finished v
      { currentMessages := st.currentMessages ++ turnAppend am tms,
        currentGroup := st.currentGroup ++ turnAppend am tms,
        messageHistory := st.messageHistory ++ [st.currentGroup ++ turnAppend am tms],
        runMetadata := md₂ }) := by
  unfold runTurn
  rw [hstep]
  simp only [Bind.bind, Except.bind]
  rw [hdet]

/-- A turn with no finish signal and no token usage just appends. -/
theorem runTurn_next_noUsage {ag : Agent PV} {st : LoopState} {am : AssistantMessage}
    {tms : List ToolMessage} {md₂ : Metadata}
    (hstep : step ag st.currentMessages st.runMetadata = .ok (am, tms, md₂))
    (hdet : detectFinish ag.finishTool (am.toolCalls.getD []) = none)
    (htu : am.tokenUsage = none) :
    runTurn ag st = .ok (.next
      { currentMessages := st.currentMessages ++ turnAppend am tms,
        currentGroup := st.currentGroup ++ turnAppend am tms,
        messageHistory := st.messageHistory, runMetadata := md₂ }) := by
  unfold runTurn
  rw [hstep]
  simp only [Bind.bind, Except.bind]
  rw [hdet, htu]

/-- A turn below the summarization cutoff just appends. -/
theorem runTurn_next_belowCutoff {ag : Agent PV} {st : LoopState} {am : AssistantMessage}
    {tms : List ToolMessage} {md₂ : Metadata} {tu : TokenUsage}
    (hstep : step ag st.currentMessages st.runMetadata = .ok (am, tms, md₂))
    (hdet : detectFinish ag.finishTool (am.toolCalls.getD []) = none)
    (htu : am.tokenUsage = some tu)
    (hcut : ¬ ag.contextSummarizationCutoff ≤
      ((tu.input + tu.output : Nat) : Rat) / (ag.client.maxTokens : Rat)) :
    runTurn ag st = .ok (.next
      { currentMessages := st.currentMessages ++ turnAppend am tms,
        currentGroup := st.currentGroup ++ turnAppend am tms,
        messageHistory := st.messageHistory, runMetadata := md₂ }) := by
  unfold runTurn
  rw [hstep]
  simp only [Bind.bind, Except.bind]
  rw [hdet, htu]
  simp only [hcut, if_false]

/-- A turn meeting the summarization cutoff seals the pre-summarization
group and restarts the active list and group from the summarized list. -/
theorem runTurn_next_summarize {ag : Agent PV} {st : LoopState} {am : AssistantMessage}
    {tms : List ToolMessage} {md₂ : Metadata} {tu : TokenUsage} {summ : List ChatMessage}
    (hstep : step ag st.currentMessages st.runMetadata = .ok (am, tms, md₂))
    (hdet : detectFinish ag.finishTool (am.toolCalls.getD []) = none)
    (htu : am.tokenUsage = some tu)
    (hcut : ag.contextSummarizationCutoff ≤
      ((tu.input + tu.output : Nat) : Rat) / (ag.client.maxTokens : Rat))
    (hsum : summarizeMessages ag (st.currentMessages ++ turnAppend am tms) = .ok summ) :
    runTurn ag st = .ok (.next
      { currentMessages := summ, currentGroup := summ,
        messageHistory := st.messageHistory ++ [st.currentGroup ++ turnAppend am tms],
        runMetadata := md₂ }) := by
  unfold runTurn
  rw [hstep]
  simp only [Bind.bind, Except.bind]
  rw [hdet, htu]
  simp only [hcut, if_true]
  rw [hsum]

/-- A turn meeting the summarization cutoff whose summarization
generation call fails propagates that error: summarization failures are
not recovered. -/
theorem runTurn_error_summarize {ag : Agent PV} {st : LoopState} {am : AssistantMessage}
    {tms : List ToolMessage} {md₂ : Metadata} {tu : TokenUsage} {e : AgentError}
    (hstep : step ag st.currentMessages st.runMetadata = .ok (am, tms, md₂))
    (hdet : detectFinish ag.finishTool (am.toolCalls.getD []) = none)
    (htu : am.tokenUsage = some tu)
    (hcut : ag.contextSummarizationCutoff ≤
      ((tu.input + tu.output : Nat) : Rat) / (ag.client.maxTokens : Rat))
    (hsum : summarizeMessages ag (st.currentMessages ++ turnAppend am tms) = .error e) :
    runTurn ag st = .error e := by
  unfold runTurn
  rw [hstep]
  simp only [Bind.bind, Except.bind]
  rw [hdet, htu]
  simp only [hcut, if_true]
  rw [hsum]

/-- A failing primary generation call makes the whole turn fail with
that error: it is not caught. -/
theorem runTurn_error_primary {ag : Agent PV} {st : LoopState} {e : AgentError}
    (hg : ag.client.generate st.currentMessages ag.activeTools = .error e) :
    runTurn ag st = .error e := by
  unfold runTurn
  rw [step_error hg]
  rfl

/-- Appending lists adds assistant counts. -/
theorem countAssistant_append (a b : List ChatMessage) :
    countAssistant (a ++ b) = countAssistant a + countAssistant b :=
  List.countP_append _ a b

/-- Tool messages contribute no assistant count. -/
theorem countAssistant_map_ofTool (tms : List ToolMessage) :
    countAssistant (tms.map ChatMessage.ofTool) = 0 := by
  induction tms with
  | nil => rfl
  | cons t rest ih =>
    simp [countAssistant, List.countP_cons, ChatMessage.ofTool, isAssistant] at ih ⊢

/-- A turn appends exactly one assistant message. -/
theorem countAssistant_turnAppend (am : AssistantMessage) (tms : List ToolMessage) :
    countAssistant (turnAppend am tms) = 1 := by
  have h0 := countAssistant_map_ofTool tms
  unfold countAssistant at h0
  unfold turnAppend countAssistant
  rw [List.countP_cons, h0]
  simp [ChatMessage.ofAssistant, isAssistant]

/-- The head of a left-appended list. -/
theorem head?_append_left {α : Type} {l l' : List α} {x : α} (h : l.head? = some x) :
    (l ++ l').head? = some x := by
  cases l <;> simp_all

/-- When the list starts with a system message, the preserved task
context is non-empty, keeps that head, and contains no assistant
message. -/
theorem taskContextSplit_fst_spec {messages : List ChatMessage} {c : String}
    (hhead : messages.head? = some (ChatMessage.system c)) :
    (taskContextSplit messages).1 ≠ [] ∧
    (taskContextSplit messages).1.head? = some (ChatMessage.system c) ∧
    countAssistant (taskContextSplit messages).1 = 0 := by
  cases messages with
  | nil => exact Option.noConfusion hhead
  | cons m rest =>
    have hm : m = ChatMessage.system c := by simpa using hhead
    subst hm
    cases hidx : firstAssistantIdx (ChatMessage.system c :: rest) with
    | none =>
      simp only [taskContextSplit, hidx]
      refine ⟨by simp, by simp, ?_⟩
      simp [countAssistant, List.countP_cons, isAssistant]
    | some i =>
      have hpos : 0 < i :=
        firstAssistantIdx_pos_of_system_head hhead hidx
      simp only [taskContextSplit, hidx]
      rw [if_pos hpos]
      obtain ⟨j, hj⟩ : ∃ j, i = j + 1 := ⟨i - 1, by omega⟩
      subst hj
      refine ⟨by simp [List.take_succ_cons], by simp [List.take_succ_cons], ?_⟩
      have htk := firstAssistantIdx_take hidx
      unfold countAssistant
      rw [List.countP_eq_zero]
      intro m hm'
      simpa using htk m hm'

/-- `summarizeMessages` on a successful summary generation, in closed
form. -/
theorem summarizeMessages_eq {ag : Agent PV} (messages : List ChatMessage)
    {resp : AssistantMessage}
    (hg : ag.client.generate
      (ChatMessage.system MESSAGE_SUMMARIZER_PROMPT ::
        ((taskContextSplit messages).2 ++ [ChatMessage.user "Please provide a concise summary."]))
      [] = .ok resp) :
    summarizeMessages ag messages =
      .ok ((taskContextSplit messages).1 ++
        [ChatMessage.user (MESSAGE_SUMMARIZER_BRIDGE_TEMPLATE resp.content)]) := by
  unfold summarizeMessages
  rw [hg]
  rfl

/-- A failing summary generation call propagates out of
`summarizeMessages`. -/
theorem summarizeMessages_error {ag : Agent PV} {messages : List ChatMessage}
    {e : AgentError}
    (hg : ag.client.generate
      (ChatMessage.system MESSAGE_SUMMARIZER_PROMPT ::
        ((taskContextSplit messages).2 ++ [ChatMessage.user "Please provide a concise summary."]))
      [] = .error e) :
    summarizeMessages ag messages = .error e := by
  unfold summarizeMessages
  rw [hg]
  rfl

/-- Inversion for a successful summarization. -/
theorem summarizeMessages_ok_elim {ag : Agent PV} {messages summ : List ChatMessage}
    (h : summarizeMessages ag messages = .ok summ) :
    ∃ resp, ag.client.generate
      (ChatMessage.system MESSAGE_SUMMARIZER_PROMPT ::
        ((taskContextSplit messages).2 ++ [ChatMessage.user "Please provide a concise summary."]))
      [] = .ok resp ∧
      summ = (taskContextSplit messages).1 ++
        [ChatMessage.user (MESSAGE_SUMMARIZER_BRIDGE_TEMPLATE resp.content)] := by
  unfold summarizeMessages at h
  cases hg : ag.client.generate
      (ChatMessage.system MESSAGE_SUMMARIZER_PROMPT ::
        ((taskContextSplit messages).2 ++ [ChatMessage.user "Please provide a concise summary."]))
      [] with
  | error e => rw [hg] at h; simp [Bind.bind, Except.bind] at h
  | ok resp =>
    rw [hg] at h
    simp only [Bind.bind, Except.bind, Except.ok.injEq] at h
    exact ⟨resp, rfl, h.symm⟩

/-- A failing summarization comes from its generation call failing with
the same error. -/
theorem summarizeMessages_error_elim {ag : Agent PV} {messages : List ChatMessage}
    {e : AgentError}
    (h : summarizeMessages ag messages = .error e) :
    ag.client.generate
      (ChatMessage.system MESSAGE_SUMMARIZER_PROMPT ::
        ((taskContextSplit messages).2 ++ [ChatMessage.user "Please provide a concise summary."]))
      [] = .error e := by
  unfold summarizeMessages at h
  cases hg : ag.client.generate
      (ChatMessage.system MESSAGE_SUMMARIZER_PROMPT ::
        ((taskContextSplit messages).2 ++ [ChatMessage.user "Please provide a concise summary."]))
      [] with
  | error e0 =>
    rw [hg] at h
    simp only [Bind.bind, Except.bind, Except.error.injEq] at h
    exact h ▸ rfl
  | ok resp =>
    rw [hg] at h
    simp [Bind.bind, Except.bind] at h

/-- One loop iteration, unfolded. -/
theorem runLoop_succ_eq (ag : Agent PV) (n : Nat) (st : LoopState) :
    runLoop ag (n + 1) st =
      Except.bind (runTurn ag st) (fun out =>
        match out with
        | .finished finishParams st' => .ok (some finishParams, st')
        | .next st' => runLoop ag n st') := rfl

/-- Unfolding one loop iteration on a `.next` outcome. -/
theorem runLoop_succ_of_next {ag : Agent PV} {st st₁ : LoopState} {n : Nat}
    (h : runTurn ag st = .ok (.next st₁)) :
    runLoop ag (n + 1) st = runLoop ag n st₁ := by
  rw [runLoop_succ_eq, h]
  rfl

/-- Unfolding one loop iteration on a `.finished` outcome. -/
theorem runLoop_succ_of_finished {ag : Agent PV} {st st' : LoopState} {v : PV} {n : Nat}
    (h : runTurn ag st = .ok (.finished v st')) :
    runLoop ag (n + 1) st = .ok (some v, st') := by
  rw [runLoop_succ_eq, h]
  rfl

/-- Unfolding one loop iteration on an error. -/
theorem runLoop_succ_of_error {ag : Agent PV} {st : LoopState} {e : AgentError} {n : Nat}
    (h : runTurn ag st = .error e) :
    runLoop ag (n + 1) st = .error e := by
  rw [runLoop_succ_eq, h]
  rfl

/-- Inversion of a `.finished` turn: it comes from a successful step
whose finish scan validated exactly those parameters. -/
theorem runTurn_finished_elim {ag : Agent PV} {st stF : LoopState} {v : PV}
    (h : runTurn ag st = .ok (.finished v stF)) :
    ∃ am tms md₂, step ag st.currentMessages st.runMetadata = .ok (am, tms, md₂) ∧
      detectFinish ag.finishTool (am.toolCalls.getD []) = some v := by
  unfold runTurn at h
  cases hs : step ag st.currentMessages st.runMetadata with
  | error e => rw [hs] at h; simp [Bind.bind, Except.bind] at h
  | ok sres =>
    rw [hs] at h
    obtain ⟨am, tms, md₂⟩ := sres
    simp only [Bind.bind, Except.bind] at h
    refine ⟨am, tms, md₂, rfl, ?_⟩
    cases hd : detectFinish ag.finishTool (am.toolCalls.getD []) with
    | some fp =>
      simp only [hd] at h
      injection h with h2
      injection h2 with hv _
      rw [hv]
    | none =>
      exfalso
      simp only [hd] at h
      cases htu : am.tokenUsage with
      | none => simp only [htu] at h; simp at h
      | some tu =>
        simp only [htu] at h
        by_cases hcut : ag.contextSummarizationCutoff ≤
            ((tu.input + tu.output : Nat) : Rat) / (ag.client.maxTokens : Rat)
        · rw [if_pos hcut] at h
          cases hsm : summarizeMessages ag
              (st.currentMessages ++ turnAppend am tms) with
          | error e => simp only [hsm] at h; simp at h
          | ok summ => simp only [hsm] at h; simp at h
        · rw [if_neg hcut] at h
          simp at h

/-- A turn whose finish scan fails can never stop the loop. -/
theorem runTurn_ne_finished_of_detect_none {ag : Agent PV} {st : LoopState}
    {am : AssistantMessage} {tms : List ToolMessage} {md₂ : Metadata}
    (hstep : step ag st.currentMessages st.runMetadata = .ok (am, tms, md₂))
    (hdet : detectFinish ag.finishTool (am.toolCalls.getD []) = none) :
    ∀ (v : PV) (stF : LoopState), runTurn ag st ≠ .ok (.finished v stF) := by
  intro v stF h
  obtain ⟨am', tms', md', hs', hd'⟩ := runTurn_finished_elim h
  rw [hstep] at hs'
  injection hs' with h2
  have ham : am' = am := (congrArg Prod.fst h2).symm
  rw [ham] at hd'
  rw [hdet] at hd'
  exact Option.noConfusion hd'

/-- Sealing one more group adds its assistant count. -/
theorem countAssistant_flatten_append_singleton (hist : List (List ChatMessage))
    (g : List ChatMessage) :
    countAssistant ((hist ++ [g]).flatten) = countAssistant hist.flatten + countAssistant g := by
  rw [List.flatten_append, countAssistant_append]
  simp [countAssistant]

/-- With a client whose every call succeeds and a finish scan that never
fires, the loop runs through all its fuel: it returns `.ok` with no
finish parameters, keeps the live group non-empty and the active list
headed by the system message, and each executed turn contributes exactly
one assistant message across the sealed groups plus the live group. -/
theorem runLoop_no_finish {ag : Agent PV}
    (hgen : ∀ msgs tools, ∃ am, ag.client.generate msgs tools = .ok am)
    (hnofin : ∀ msgs tools am, ag.client.generate msgs tools = .ok am →
      detectFinish ag.finishTool (am.toolCalls.getD []) = none) :
    ∀ (fuel : Nat) (st : LoopState),
      st.currentGroup ≠ [] →
      (∃ c, st.currentMessages.head? = some (ChatMessage.system c)) →
      ∃ st', runLoop ag fuel st = .ok (none, st') ∧
        st'.currentGroup ≠ [] ∧
        (∃ c, st'.currentMessages.head? = some (ChatMessage.system c)) ∧
        countAssistant st'.messageHistory.flatten + countAssistant st'.currentGroup =
          countAssistant st.messageHistory.flatten + countAssistant st.currentGroup + fuel := by
  intro fuel
  induction fuel with
  | zero =>
    intro st hgrp hhead
    exact ⟨st, rfl, hgrp, hhead, by omega⟩
  | succ n ih =>
    intro st hgrp hhead
    obtain ⟨c, hc⟩ := hhead
    obtain ⟨am, ham⟩ := hgen st.currentMessages ag.activeTools
    have hstep := step_ok_intro st.runMetadata ham
    have hdet := hnofin _ _ _ ham
    set tms := (runTools ag.activeTools (am.toolCalls.getD [])
      (recordTokenUsage am st.runMetadata)).1 with htms
    have hgrp1 : st.currentGroup ++ turnAppend am tms ≠ [] := by
      simp [turnAppend]
    have hhead1 : (st.currentMessages ++ turnAppend am tms).head? =
        some (ChatMessage.system c) := head?_append_left hc
    have hgrpcount : countAssistant (st.currentGroup ++ turnAppend am tms) =
        countAssistant st.currentGroup + 1 := by
      rw [countAssistant_append, countAssistant_turnAppend]
    cases htu : am.tokenUsage with
    | none =>
      have hturn := runTurn_next_noUsage hstep hdet htu
      obtain ⟨st', hloop, h1, h2, h3⟩ := ih
        { currentMessages := st.currentMessages ++ turnAppend am tms,
          currentGroup := st.currentGroup ++ turnAppend am tms,
          messageHistory := st.messageHistory,
          runMetadata := (runTools ag.activeTools (am.toolCalls.getD [])
            (recordTokenUsage am st.runMetadata)).2 }
        hgrp1 ⟨c, hhead1⟩
      refine ⟨st', (runLoop_succ_of_next hturn).trans hloop, h1, h2, ?_⟩
      rw [h3]
      simp only [hgrpcount]
      omega
    | some tu =>
      by_cases hcut : ag.contextSummarizationCutoff ≤
          ((tu.input + tu.output : Nat) : Rat) / (ag.client.maxTokens : Rat)
      · obtain ⟨resp, hresp⟩ := hgen
          (ChatMessage.system MESSAGE_SUMMARIZER_PROMPT ::
            ((taskContextSplit (st.currentMessages ++ turnAppend am tms)).2 ++
              [ChatMessage.user "Please provide a concise summary."])) []
        have hsum := summarizeMessages_eq
          (st.currentMessages ++ turnAppend am tms) hresp
        have hturn := runTurn_next_summarize hstep hdet htu hcut hsum
        have hts := taskContextSplit_fst_spec hhead1
        have hsumgrp : (taskContextSplit (st.currentMessages ++ turnAppend am tms)).1 ++
            [ChatMessage.user (MESSAGE_SUMMARIZER_BRIDGE_TEMPLATE resp.content)] ≠ [] := by
          simp
        have hsumhead : ((taskContextSplit (st.currentMessages ++ turnAppend am tms)).1 ++
            [ChatMessage.user (MESSAGE_SUMMARIZER_BRIDGE_TEMPLATE resp.content)]).head? =
            some (ChatMessage.system c) := head?_append_left hts.2.1
        have hsumcount : countAssistant
            ((taskContextSplit (st.currentMessages ++ turnAppend am tms)).1 ++
              [ChatMessage.user (MESSAGE_SUMMARIZER_BRIDGE_TEMPLATE resp.content)]) = 0 := by
          rw [countAssistant_append, hts.2.2]
          simp [countAssistant, isAssistant]
        obtain ⟨st', hloop, h1, h2, h3⟩ := ih
          { currentMessages := (taskContextSplit (st.currentMessages ++ turnAppend am tms)).1 ++
              [ChatMessage.user (MESSAGE_SUMMARIZER_BRIDGE_TEMPLATE resp.content)],
            currentGroup := (taskContextSplit (st.currentMessages ++ turnAppend am tms)).1 ++
              [ChatMessage.user (MESSAGE_SUMMARIZER_BRIDGE_TEMPLATE resp.content)],
            messageHistory := st.messageHistory ++ [st.currentGroup ++ turnAppend am tms],
            runMetadata := (runTools ag.activeTools (am.toolCalls.getD [])
              (recordTokenUsage am st.runMetadata)).2 }
          hsumgrp ⟨c, hsumhead⟩
        refine ⟨st', (runLoop_succ_of_next hturn).trans hloop, h1, h2, ?_⟩
        rw [h3]
        simp only [hsumcount, countAssistant_flatten_append_singleton, hgrpcount]
        omega
      · have hturn := runTurn_next_belowCutoff hstep hdet htu hcut
        obtain ⟨st', hloop, h1, h2, h3⟩ := ih
          { currentMessages := st.currentMessages ++ turnAppend am tms,
            currentGroup := st.currentGroup ++ turnAppend am tms,
            messageHistory := st.messageHistory,
            runMetadata := (runTools ag.activeTools (am.toolCalls.getD [])
              (recordTokenUsage am st.runMetadata)).2 }
          hgrp1 ⟨c, hhead1⟩
        refine ⟨st', (runLoop_succ_of_next hturn).trans hloop, h1, h2, ?_⟩
        rw [h3]
        simp only [hgrpcount]
        omega

/-- The loop's finish parameters are `some v` exactly when some executed
turn's finish scan validated `v`. -/
theorem runLoop_finish_iff {ag : Agent PV} :
    ∀ (fuel : Nat) (st : LoopState) (res : Option PV × LoopState),
      runLoop ag fuel st = .ok res →
      ∀ v, (res.1 = some v ↔ ReachesFinish ag fuel st v) := by
  intro fuel
  induction fuel with
  | zero =>
    intro st res h v
    have h0 : runLoop ag 0 st = .ok (none, st) := rfl
    rw [h0] at h
    injection h with h2
    constructor
    · intro hv
      rw [← h2] at hv
      simp at hv
    · intro hr
      cases hr
  | succ n ih =>
    intro st res h v
    cases hturn : runTurn ag st with
    | error e =>
      rw [runLoop_succ_of_error hturn] at h
      exact absurd h (by simp)
    | ok out =>
      cases out with
      | finished v' st' =>
        rw [runLoop_succ_of_finished hturn] at h
        injection h with h2
        constructor
        · intro hv
          rw [← h2] at hv
          simp at hv
          subst hv
          exact .here hturn
        · intro hr
          cases hr with
          | here h3 =>
            rw [hturn] at h3
            injection h3 with h4
            injection h4 with hv _
            rw [← h2, hv]
          | later h3 _ =>
            rw [hturn] at h3
            injection h3 with h4
            exact TurnOutcome.noConfusion h4
      | next st' =>
        rw [runLoop_succ_of_next hturn] at h
        have hiff := ih st' res h v
        constructor
        · intro hv
          exact .later hturn (hiff.mp hv)
        · intro hr
          cases hr with
          | here h3 =>
            rw [hturn] at h3
            injection h3 with h4
            exact TurnOutcome.noConfusion h4
          | later h3 hrest =>
            rw [hturn] at h3
            injection h3 with h4
            injection h4 with hst
            exact hiff.mpr (by rw [hst]; exact hrest)

/-- Folding `ToolUseCountMetadata.add` over a list of counters sums
them. -/
theorem foldl_toolUseCount_add :
    ∀ (ns : List Nat) (n : Nat),
      (ns.map MetaVal.toolUseCount).foldl MetaVal.add (MetaVal.toolUseCount n) =
        MetaVal.toolUseCount (n + ns.sum) := by
  intro ns
  induction ns with
  | nil => intro n; simp
  | cons m ms ih =>
    intro n
    simp only [List.map_cons, List.foldl_cons, List.sum_cons]
    rw [show MetaVal.add (MetaVal.toolUseCount n) (MetaVal.toolUseCount m) =
          MetaVal.toolUseCount (n + m) from rfl, ih]
    ring_nf

/-! ## Claim theorems -/

/-- C6: session disposal releases all acquired resources in strict
reverse-of-acquisition (LIFO) order and continues through failures:
every entry's cleanup is invoked, in reverse order, disposal errors are
collected across all entries and raised only once the whole stack has
been drained; in particular for resources acquired in order A, B, C with
B's disposal throwing, disposal invokes C, then B, then A (A still
runs), surfaces B's error, and with B the only failure rethrows exactly
that error. -/
theorem dispose_lifo_collects_all_errors :
    (∀ stack : List DisposeEntry,
      (AsyncDisposableStack.dispose false stack).1 = (stack.map DisposeEntry.id).reverse) ∧
    (∀ stack : List DisposeEntry,
      (AsyncDisposableStack.dispose false stack).2 = disposeOutcome (disposeFailures stack)) ∧
    (∀ (ra rc : Except String Unit) (eb : String),
      (AsyncDisposableStack.dispose false
        [{ id := "A", result := ra }, { id := "B", result := .error eb },
         { id := "C", result := rc }]).1 = ["C", "B", "A"] ∧
      eb ∈ disposeFailures
        [{ id := "A", result := ra }, { id := "B", result := .error eb },
         { id := "C", result := rc }]) ∧
    (AsyncDisposableStack.dispose false
      [{ id := "A", result := .ok () }, { id := "B", result := .error "boom" },
       { id := "C", result := .ok () }] = (["C", "B", "A"], .thrown "boom")) := by
  refine ⟨?_, ?_, ?_, ?_⟩
  · intro stack
    simp [AsyncDisposableStack.dispose, disposeSteps_spec, List.map_reverse]
  · intro stack
    simp [AsyncDisposableStack.dispose, disposeSteps_spec, disposeFailures]
  · intro ra rc eb
    constructor
    · simp [AsyncDisposableStack.dispose, disposeSteps_spec]
    · cases ra <;> cases rc <;> simp [disposeFailures]
  · rfl

/-- C7: metadata aggregation folds the collected values for one tool
name via repeated `add` in call order when they are addable
(`ToolUseCountMetadata` counters sum up, and `add` is associative on
them, so `[ToolUseCount 1, ToolUseCount 2, ToolUseCount 3]` aggregates
to `ToolUseCount 6` regardless of grouping); an empty collection
produces no entry in the aggregated map; a collection whose values are
not addable is retained as the ordered list of collected values. -/
theorem aggregate_metadata_fold_spec :
    (∀ (k pfx : String) (rest : Metadata),
      aggregateMetadata ((k, ([] : List MetaVal)) :: rest) pfx = aggregateMetadata rest pfx) ∧
    (∀ a b c : Nat,
      MetaVal.add (MetaVal.add (.toolUseCount a) (.toolUseCount b)) (.toolUseCount c) =
        MetaVal.add (.toolUseCount a) (MetaVal.add (.toolUseCount b) (.toolUseCount c))) ∧
    (∀ (k pfx : String) (n : Nat) (ns : List Nat) (rest : Metadata),
      aggregateMetadata ((k, (n :: ns).map MetaVal.toolUseCount) :: rest) pfx =
        (fullKey pfx k, .one (.toolUseCount (n + ns.sum))) :: aggregateMetadata rest pfx) ∧
    (aggregateMetadata [("t", [.toolUseCount 1, .toolUseCount 2, .toolUseCount 3])] "" =
        [("t", .one (.toolUseCount 6))] ∧
      MetaVal.add (MetaVal.add (.toolUseCount 1) (.toolUseCount 2)) (.toolUseCount 3) =
        MetaVal.add (.toolUseCount 1) (MetaVal.add (.toolUseCount 2) (.toolUseCount 3))) ∧
    (∀ (k pfx s : String) (vs : List MetaVal) (rest : Metadata),
      aggregateMetadata ((k, MetaVal.raw s :: vs) :: rest) pfx =
        (fullKey pfx k, .many (MetaVal.raw s :: vs)) :: aggregateMetadata rest pfx) := by
  refine ⟨?_, ?_, ?_, ⟨rfl, rfl⟩, ?_⟩
  · intro k pfx rest
    simp [aggregateMetadata, List.filterMap_cons, aggregateEntry]
  · intro a b c
    simp [MetaVal.add, Nat.add_assoc]
  · intro k pfx n ns rest
    simp only [List.map_cons, aggregateMetadata, List.filterMap_cons, aggregateEntry,
      MetaVal.hasAdd, if_true]
    rw [foldl_toolUseCount_add]
    rfl
  · intro k pfx s vs rest
    simp [aggregateMetadata, List.filterMap_cons, aggregateEntry, MetaVal.hasAdd]

/-- C4: tool dispatch is total — `runTool` returns a tool message on
every input by construction — and for a tool call whose name is not in
the registry it returns the descriptive error body with
`argsWasValid := false` and leaves the metadata untouched; a turn all
of whose calls have unknown names cannot fire the finish scan (the
finish tool, when configured, is registered under its reserved name),
so the run does not terminate. -/
theorem unknown_tool_dispatch_returns_invalid {PV : Type}
    (tools : List (String × BaseTool PV)) (toolCall : ToolCall) (md : Metadata)
    (hunknown : lookupTool tools toolCall.name = none) :
    runTool tools toolCall md =
      ({ content := "Error: \x27" ++ toolCall.name ++ "\x27 is not a valid tool",
         toolCallId := toolCall.toolCallId.getD "",
         name := toolCall.name, argsWasValid := false }, md) ∧
    (∀ (ag : Agent PV) (calls : List ToolCall),
      (∀ c ∈ calls, lookupTool ag.activeTools c.name = none) →
      (∀ f, ag.finishTool = some f → lookupTool ag.activeTools FINISH_TOOL_NAME = some f) →
      detectFinish ag.finishTool calls = none) ∧
    (∀ (ag : Agent PV) (st : LoopState) (am : AssistantMessage) (tms : List ToolMessage)
        (md₂ : Metadata),
      step ag st.currentMessages st.runMetadata = .ok (am, tms, md₂) →
      (∀ c ∈ am.toolCalls.getD [], lookupTool ag.activeTools c.name = none) →
      (∀ f, ag.finishTool = some f → lookupTool ag.activeTools FINISH_TOOL_NAME = some f) →
      ∀ (v : PV) (stF : LoopState), runTurn ag st ≠ .ok (.finished v stF)) := by
  refine ⟨?_, ?_, ?_⟩
  · simp [runTool, hunknown]
  · intro ag calls h1 h2
    exact detectFinish_eq_none_of_unknown ag calls h1 h2
  · intro ag st am tms md₂ hstep h1 h2 v stF
    exact runTurn_ne_finished_of_detect_none hstep
      (detectFinish_eq_none_of_unknown ag _ h1 h2) v stF

/-- C4 witness: dispatching a call named `nope` against an empty
registry yields the invalid-tool message and the run cannot terminate
through such calls. -/
theorem unknown_tool_dispatch_returns_invalid_witness :
    runTool ([] : List (String × BaseTool ReasonParams))
        { name := "nope", arguments := "", toolCallId := none } [] =
      ({ content := "Error: \x27nope\x27 is not a valid tool", toolCallId := "",
         name := "nope", argsWasValid := false }, []) ∧
    (∀ (ag : Agent ReasonParams) (calls : List ToolCall),
      (∀ c ∈ calls, lookupTool ag.activeTools c.name = none) →
      (∀ f, ag.finishTool = some f → lookupTool ag.activeTools FINISH_TOOL_NAME = some f) →
      detectFinish ag.finishTool calls = none) ∧
    (∀ (ag : Agent ReasonParams) (st : LoopState) (am : AssistantMessage)
        (tms : List ToolMessage) (md₂ : Metadata),
      step ag st.currentMessages st.runMetadata = .ok (am, tms, md₂) →
      (∀ c ∈ am.toolCalls.getD [], lookupTool ag.activeTools c.name = none) →
      (∀ f, ag.finishTool = some f → lookupTool ag.activeTools FINISH_TOOL_NAME = some f) →
      ∀ (v : ReasonParams) (stF : LoopState), runTurn ag st ≠ .ok (.finished v stF)) :=
  unknown_tool_dispatch_returns_invalid []
    { name := "nope", arguments := "", toolCallId := none } [] rfl

/-- C5: a tool call whose arguments validate but whose handler throws is
converted into a tool message with `argsWasValid := true` and a body
describing the execution error; no exception leaves `runTool` (it is a
total function), and every run-level failure originates from the model
client, never from a tool handler. -/
theorem handler_error_caught_as_message {PV : Type}
    (tools : List (String × BaseTool PV)) (toolCall : ToolCall) (md : Metadata)
    (tool : BaseTool PV) (parse : String → Option PV) (v : PV) (e : String)
    (hlook : lookupTool tools toolCall.name = some tool)
    (hschema : tool.parameters = some parse)
    (hvalid : parse toolCall.arguments = some v)
    (hexec : tool.executor (some v) = .error e) :
    runTool tools toolCall md =
      ({ content := "Error executing tool: " ++ e,
         toolCallId := toolCall.toolCallId.getD "",
         name := toolCall.name, argsWasValid := true }, metaInit md toolCall.name) ∧
    (∀ (ag : Agent PV) (st : LoopState) (e2 : AgentError),
      runTurn ag st = .error e2 →
      ag.client.generate st.currentMessages ag.activeTools = .error e2 ∨
      ∃ msgs2, ag.client.generate msgs2 [] = .error e2) := by
  constructor
  · simp [runTool, hlook, hschema, hvalid, runToolExec, hexec]
  · intro ag st e2 h
    cases hg : ag.client.generate st.currentMessages ag.activeTools with
    | error e0 =>
      rw [runTurn_error_primary hg] at h
      injection h with h2
      subst h2
      exact Or.inl rfl
    | ok am =>
      have hstep := step_ok_intro st.runMetadata hg
      cases hdet : detectFinish ag.finishTool (am.toolCalls.getD []) with
      | some v0 =>
        rw [runTurn_finished hstep hdet] at h
        exact absurd h (by simp)
      | none =>
        cases htu : am.tokenUsage with
        | none =>
          rw [runTurn_next_noUsage hstep hdet htu] at h
          exact absurd h (by simp)
        | some tu =>
          by_cases hcut : ag.contextSummarizationCutoff ≤
              ((tu.input + tu.output : Nat) : Rat) / (ag.client.maxTokens : Rat)
          · cases hsm : summarizeMessages ag (st.currentMessages ++ turnAppend am
                ((runTools ag.activeTools (am.toolCalls.getD [])
                  (recordTokenUsage am st.runMetadata)).1)) with
            | error e3 =>
              rw [runTurn_error_summarize hstep hdet htu hcut hsm] at h
              injection h with h2
              subst h2
              exact Or.inr ⟨_, summarizeMessages_error_elim hsm⟩
            | ok summ =>
              rw [runTurn_next_summarize hstep hdet htu hcut hsm] at h
              exact absurd h (by simp)
          · rw [runTurn_next_belowCutoff hstep hdet htu hcut] at h
            exact absurd h (by simp)

/-- C5 witness: `fail_tool`'s handler throws `boom` on validated
arguments and dispatch yields the error-describing message with
`argsWasValid := true`. -/
theorem handler_error_caught_as_message_witness :
    runTool [("fail_tool", failTool)]
        { name := "fail_tool", arguments := doneArgs, toolCallId := some "call-9" } [] =
      ({ content := "Error executing tool: boom", toolCallId := "call-9",
         name := "fail_tool", argsWasValid := true }, [("fail_tool", [])]) ∧
    (∀ (ag : Agent ReasonParams) (st : LoopState) (e2 : AgentError),
      runTurn ag st = .error e2 →
      ag.client.generate st.currentMessages ag.activeTools = .error e2 ∨
      ∃ msgs2, ag.client.generate msgs2 [] = .error e2) :=
  handler_error_caught_as_message [("fail_tool", failTool)]
    { name := "fail_tool", arguments := doneArgs, toolCallId := some "call-9" } []
    failTool reasonSchema (ReasonParams.mk "done") "boom" rfl rfl rfl rfl

/-- C1: in a turn whose assistant message carries a tool call naming the
finish tool with schema-valid arguments, every tool call of that message
— including any listed after the finish call — is dispatched and
receives exactly one tool message, in list order; the group sealed at
termination contains them all, and the run loop stops successfully at
the end of that very turn with the validated parameters. -/
theorem finish_turn_executes_all_calls_then_terminates {PV : Type}
    {ag : Agent PV} {st : LoopState} {am : AssistantMessage} {tms : List ToolMessage}
    {md₂ : Metadata} {v : PV}
    (hstep : step ag st.currentMessages st.runMetadata = .ok (am, tms, md₂))
    (hfin : detectFinish ag.finishTool (am.toolCalls.getD []) = some v) :
    tms.length = (am.toolCalls.getD []).length ∧
    (∀ (i : Nat) (h : i < (am.toolCalls.getD []).length) (h2 : i < tms.length),
      tms.get ⟨i, h2⟩ =
        (runTool ag.activeTools ((am.toolCalls.getD []).get ⟨i, h⟩)
          (recordTokenUsage am st.runMetadata)).1) ∧
    runTurn ag st = .ok (.finished v
      { currentMessages := st.currentMessages ++ turnAppend am tms,
        currentGroup := st.currentGroup ++ turnAppend am tms,
        messageHistory := st.messageHistory ++ [st.currentGroup ++ turnAppend am tms],
        runMetadata := md₂ }) ∧
    (∀ fuel : Nat, runLoop ag (fuel + 1) st = .ok (some v,
      { currentMessages := st.currentMessages ++ turnAppend am tms,
        currentGroup := st.currentGroup ++ turnAppend am tms,
        messageHistory := st.messageHistory ++ [st.currentGroup ++ turnAppend am tms],
        runMetadata := md₂ })) := by
  obtain ⟨hg, hrt⟩ := step_ok_elim hstep
  have htms : (runTools ag.activeTools (am.toolCalls.getD [])
      (recordTokenUsage am st.runMetadata)).1 = tms := congrArg Prod.fst hrt
  subst htms
  refine ⟨?_, ?_, runTurn_finished hstep hfin,
    fun fuel => runLoop_succ_of_finished (runTurn_finished hstep hfin)⟩
  · rw [runTools_fst_length]
  · intro i h h2
    exact runTools_fst_get ag.activeTools _ _ i h h2

/-- C1 witness: `twoCallAgent`'s turn has a valid finish call followed by
an `echo` call; both are dispatched in order and the loop finishes. -/
theorem finish_turn_executes_all_calls_then_terminates_witness :
    step twoCallAgent c1state.currentMessages c1state.runMetadata =
      .ok (c1assistant, c1toolMessages, c1metadata) ∧
    detectFinish twoCallAgent.finishTool (c1assistant.toolCalls.getD []) =
      some (ReasonParams.mk "done") ∧
    (c1toolMessages.length = (c1assistant.toolCalls.getD []).length ∧
      (∀ (i : Nat) (h : i < (c1assistant.toolCalls.getD []).length)
          (h2 : i < c1toolMessages.length),
        c1toolMessages.get ⟨i, h2⟩ =
          (runTool twoCallAgent.activeTools ((c1assistant.toolCalls.getD []).get ⟨i, h⟩)
            (recordTokenUsage c1assistant c1state.runMetadata)).1) ∧
      runTurn twoCallAgent c1state = .ok (.finished (ReasonParams.mk "done")
        { currentMessages := c1state.currentMessages ++ turnAppend c1assistant c1toolMessages,
          currentGroup := c1state.currentGroup ++ turnAppend c1assistant c1toolMessages,
          messageHistory := c1state.messageHistory ++
            [c1state.currentGroup ++ turnAppend c1assistant c1toolMessages],
          runMetadata := c1metadata }) ∧
      (∀ fuel : Nat, runLoop twoCallAgent (fuel + 1) c1state = .ok (some (ReasonParams.mk "done"),
        { currentMessages := c1state.currentMessages ++ turnAppend c1assistant c1toolMessages,
          currentGroup := c1state.currentGroup ++ turnAppend c1assistant c1toolMessages,
          messageHistory := c1state.messageHistory ++
            [c1state.currentGroup ++ turnAppend c1assistant c1toolMessages],
          runMetadata := c1metadata }))) :=
  ⟨rfl, rfl, finish_turn_executes_all_calls_then_terminates rfl rfl⟩

/-- C2: in the result of `run`, `finishParams = some v` exactly when
some executed turn's finish scan validated `v` (a finish-named tool call
whose arguments validate against the configured finish tool's schema);
when present it equals those validated parameters, since a `.finished`
turn outcome arises only from a successful step whose finish scan
returned exactly that value. -/
theorem finishParams_present_iff_valid_finish_call {PV : Type}
    {ag : Agent PV} {init : List ChatMessage} {r : RunResult PV}
    (hrun : Agent.run ag init = .ok r) :
    (∀ v, r.finishParams = some v ↔
      ReachesFinish ag ag.maxTurns (initLoopState ag init) v) ∧
    (∀ (st stF : LoopState) (v : PV), runTurn ag st = .ok (.finished v stF) →
      ∃ am tms md₂, step ag st.currentMessages st.runMetadata = .ok (am, tms, md₂) ∧
        detectFinish ag.finishTool (am.toolCalls.getD []) = some v) := by
  refine ⟨?_, fun st stF v h => runTurn_finished_elim h⟩
  intro v
  unfold Agent.run at hrun
  cases hloop : runLoop ag ag.maxTurns (initLoopState ag init) with
  | error e =>
    rw [hloop] at hrun
    simp [Bind.bind, Except.bind] at hrun
  | ok res =>
    rw [hloop] at hrun
    simp only [Bind.bind, Except.bind, Except.ok.injEq] at hrun
    have hfp : r.finishParams = res.1 := by rw [← hrun]
    rw [hfp]
    exact runLoop_finish_iff ag.maxTurns _ res hloop v

/-- C2 witness: `finishAgent` (`maxTurns = 1`, finish tool requiring
`{reason: string}`, client immediately calling finish with
`{"reason":"done"}`) yields `finishParams = {reason := "done"}` and a
message history of exactly one group. -/
theorem finishParams_present_iff_valid_finish_call_witness :
    Agent.run finishAgent [ChatMessage.user "do the thing"] = .ok c2result ∧
    c2result.finishParams = some (ReasonParams.mk "done") ∧
    c2result.messageHistory.length = 1 ∧
    (∀ v, c2result.finishParams = some v ↔
      ReachesFinish finishAgent finishAgent.maxTurns
        (initLoopState finishAgent [ChatMessage.user "do the thing"]) v) ∧
    (∀ (st stF : LoopState) (v : ReasonParams),
      runTurn finishAgent st = .ok (.finished v stF) →
      ∃ am tms md₂, step finishAgent st.currentMessages st.runMetadata = .ok (am, tms, md₂) ∧
        detectFinish finishAgent.finishTool (am.toolCalls.getD []) = some v) :=
  ⟨rfl, rfl, rfl,
    (@finishParams_present_iff_valid_finish_call ReasonParams finishAgent
      [ChatMessage.user "do the thing"] c2result rfl).1,
    (@finishParams_present_iff_valid_finish_call ReasonParams finishAgent
      [ChatMessage.user "do the thing"] c2result rfl).2⟩

/-- C3: summarizing a message list whose first assistant message sits at
a positive index `i` (as in every run: the active list always starts
with the system message, so a list containing an assistant message has
it at a positive index — last conjunct) produces exactly the verbatim
task-context prefix (the `i` messages strictly before the first
assistant message, none of which is an assistant message) followed by
one user bridge message wrapping the summary, hence has length `i + 1`;
and in the run loop a summarizing turn seals the pre-summarization group
into the history and restarts both the active list and the group from
the summarized list. -/
theorem summarization_preserves_task_context {PV : Type}
    {ag : Agent PV} {messages : List ChatMessage} {i : Nat} {resp : AssistantMessage}
    (hidx : firstAssistantIdx messages = some i) (hpos : 0 < i)
    (hgen : ag.client.generate
      (ChatMessage.system MESSAGE_SUMMARIZER_PROMPT ::
        (messages.drop i ++ [ChatMessage.user "Please provide a concise summary."]))
      [] = .ok resp) :
    summarizeMessages ag messages =
      .ok (messages.take i ++
        [ChatMessage.user (MESSAGE_SUMMARIZER_BRIDGE_TEMPLATE resp.content)]) ∧
    (messages.take i ++
      [ChatMessage.user (MESSAGE_SUMMARIZER_BRIDGE_TEMPLATE resp.content)]).length = i + 1 ∧
    (∀ m ∈ messages.take i, isAssistant m = false) ∧
    (∀ (st : LoopState) (am : AssistantMessage) (tms : List ToolMessage) (md₂ : Metadata)
        (tu : TokenUsage) (summ : List ChatMessage),
      step ag st.currentMessages st.runMetadata = .ok (am, tms, md₂) →
      detectFinish ag.finishTool (am.toolCalls.getD []) = none →
      am.tokenUsage = some tu →
      ag.contextSummarizationCutoff ≤
        ((tu.input + tu.output : Nat) : Rat) / (ag.client.maxTokens : Rat) →
      summarizeMessages ag (st.currentMessages ++ turnAppend am tms) = .ok summ →
      runTurn ag st = .ok (.next
        { currentMessages := summ, currentGroup := summ,
          messageHistory := st.messageHistory ++ [st.currentGroup ++ turnAppend am tms],
          runMetadata := md₂ })) ∧
    (∀ (msgs2 : List ChatMessage) (c : String),
      msgs2.head? = some (ChatMessage.system c) →
      (∃ m ∈ msgs2, isAssistant m = true) →
      ∃ j, firstAssistantIdx msgs2 = some j ∧ 0 < j) := by
  have tsplit : taskContextSplit messages = (messages.take i, messages.drop i) := by
    simp only [taskContextSplit, hidx]
    rw [if_pos hpos]
  have hsplit1 : (taskContextSplit messages).1 = messages.take i := by rw [tsplit]
  have hsplit2 : (taskContextSplit messages).2 = messages.drop i := by rw [tsplit]
  refine ⟨?_, ?_, firstAssistantIdx_take hidx, ?_, ?_⟩
  · rw [← hsplit1]
    exact summarizeMessages_eq messages (by rw [hsplit2]; exact hgen)
  · have hlt := firstAssistantIdx_lt_length hidx
    simp [List.length_take]
    omega
  · intro st am tms md₂ tu summ hstep hdet htu hcut hsum
    exact runTurn_next_summarize hstep hdet htu hcut hsum
  · intro msgs2 c hh hex
    obtain ⟨j, hj⟩ := firstAssistantIdx_isSome hex
    exact ⟨j, hj, firstAssistantIdx_pos_of_system_head hh hj⟩

/-- C3 witness: summarizing `[system, user, assistant]` with
`summaryAgent` preserves the two-message task context verbatim and
appends one bridge user message. -/
theorem summarization_preserves_task_context_witness :
    firstAssistantIdx c3messages = some 2 ∧
    (0 : Nat) < 2 ∧
    summaryAgent.client.generate
      (ChatMessage.system MESSAGE_SUMMARIZER_PROMPT ::
        (c3messages.drop 2 ++ [ChatMessage.user "Please provide a concise summary."]))
      [] = .ok c3resp ∧
    summarizeMessages summaryAgent c3messages =
      .ok (c3messages.take 2 ++
        [ChatMessage.user (MESSAGE_SUMMARIZER_BRIDGE_TEMPLATE c3resp.content)]) ∧
    (c3messages.take 2 ++
      [ChatMessage.user (MESSAGE_SUMMARIZER_BRIDGE_TEMPLATE c3resp.content)]).length = 2 + 1 ∧
    (∀ m ∈ c3messages.take 2, isAssistant m = false) := by
  have h := @summarization_preserves_task_context ReasonParams summaryAgent c3messages 2 c3resp
    rfl (by omega) rfl
  exact ⟨rfl, by omega, rfl, h.1, h.2.1, h.2.2.1⟩

/-- C8: when the finish tool is never successfully called (no response's
finish scan validates) and every generation call succeeds, `run` returns
normally after exhausting `maxTurns`, with `finishParams` unset and the
accumulated message groups (at least one) and aggregated metadata still
returned. -/
theorem maxTurns_exhaustion_returns_ok_without_finish {PV : Type}
    {ag : Agent PV} (init : List ChatMessage)
    (hgen : ∀ msgs tools, ∃ am, ag.client.generate msgs tools = .ok am)
    (hnofin : ∀ msgs tools am, ag.client.generate msgs tools = .ok am →
      detectFinish ag.finishTool (am.toolCalls.getD []) = none) :
    ∃ st' : LoopState, Agent.run ag init =
      .ok { finishParams := none,
            messageHistory := st'.messageHistory ++ [st'.currentGroup],
            runMetadata := aggregateMetadata st'.runMetadata "" } ∧
      st'.messageHistory ++ [st'.currentGroup] ≠ [] := by
  obtain ⟨st', hloop, hgrp', _, _⟩ := runLoop_no_finish hgen hnofin ag.maxTurns
    (initLoopState ag init) (by simp [initLoopState, initialMessages])
    ⟨buildSystemPrompt ag, rfl⟩
  have hne : st'.currentGroup.isEmpty = false := by
    simpa [List.isEmpty_iff] using hgrp'
  refine ⟨st', ?_, by simp⟩
  unfold Agent.run
  rw [hloop]
  simp [Bind.bind, Except.bind, hne]

/-- C8 witness: `quietAgent` (no finish tool, client never calls tools)
returns normally with `finishParams` unset. -/
theorem maxTurns_exhaustion_returns_ok_without_finish_witness :
    (∀ msgs tools, ∃ am, quietAgent.client.generate msgs tools = .ok am) ∧
    (∀ msgs tools am, quietAgent.client.generate msgs tools = .ok am →
      detectFinish quietAgent.finishTool (am.toolCalls.getD []) = none) ∧
    ∃ st' : LoopState, Agent.run quietAgent [ChatMessage.user "task"] =
      .ok { finishParams := none,
            messageHistory := st'.messageHistory ++ [st'.currentGroup],
            runMetadata := aggregateMetadata st'.runMetadata "" } ∧
      st'.messageHistory ++ [st'.currentGroup] ≠ [] := by
  have hgen : ∀ msgs tools, ∃ am, quietAgent.client.generate msgs tools = .ok am :=
    fun _ _ => ⟨_, rfl⟩
  have hnofin : ∀ msgs tools am, quietAgent.client.generate msgs tools = .ok am →
      detectFinish quietAgent.finishTool (am.toolCalls.getD []) = none := by
    intro msgs tools am h
    injection h with h2
    rw [← h2]
    rfl
  exact ⟨hgen, hnofin,
    maxTurns_exhaustion_returns_ok_without_finish [ChatMessage.user "task"] hgen hnofin⟩

/-- C9 (amended) : context-overflow errors from the model client are not
caught anywhere in the core: an overflow (like any client error) from
the primary generation call propagates out of the turn and out of `run`,
and an overflow from the summarization generation call likewise fails
the turn and hence the run. -/
theorem client_errors_always_propagate {PV : Type} (ag : Agent PV) :
    (∀ (st : LoopState) (e : AgentError),
      ag.client.generate st.currentMessages ag.activeTools = .error e →
      runTurn ag st = .error e) ∧
    (∀ (messages : List ChatMessage) (e : AgentError),
      ag.client.generate
        (ChatMessage.system MESSAGE_SUMMARIZER_PROMPT ::
          ((taskContextSplit messages).2 ++
            [ChatMessage.user "Please provide a concise summary."])) [] = .error e →
      summarizeMessages ag messages = .error e) ∧
    (∀ (st : LoopState) (am : AssistantMessage) (tms : List ToolMessage) (md₂ : Metadata)
        (tu : TokenUsage) (e : AgentError),
      step ag st.currentMessages st.runMetadata = .ok (am, tms, md₂) →
      detectFinish ag.finishTool (am.toolCalls.getD []) = none →
      am.tokenUsage = some tu →
      ag.contextSummarizationCutoff ≤
        ((tu.input + tu.output : Nat) : Rat) / (ag.client.maxTokens : Rat) →
      summarizeMessages ag (st.currentMessages ++ turnAppend am tms) = .error e →
      runTurn ag st = .error e) ∧
    (∀ (init : List ChatMessage) (e : AgentError) (n : Nat),
      ag.maxTurns = n + 1 →
      ag.client.generate (initialMessages ag init) ag.activeTools = .error e →
      Agent.run ag init = .error e) := by
  refine ⟨fun st e hg => runTurn_error_primary hg,
    fun messages e hg => summarizeMessages_error hg,
    fun st am tms md₂ tu e hstep hdet htu hcut hsm =>
      runTurn_error_summarize hstep hdet htu hcut hsm,
    ?_⟩
  intro init e n hmax hg
  have h1 : runTurn ag (initLoopState ag init) = .error e := runTurn_error_primary hg
  have h2 : runLoop ag ag.maxTurns (initLoopState ag init) = .error e := by
    rw [hmax]
    exact runLoop_succ_of_error h1
  unfold Agent.run
  rw [h2]
  rfl

/-- C9 counterexample to the claim as stated: `overflowAgent`'s primary
generation call raises the context-overflow error, and `run` is not
recovered there — it fails with that very error instead of continuing. -/
theorem overflow_primary_not_recovered_counterexample :
    overflowAgent.client.generate
        (initialMessages overflowAgent [ChatMessage.user "task"])
        overflowAgent.activeTools =
      .error (.contextOverflow "Context window exceeded") ∧
    Agent.run overflowAgent [ChatMessage.user "task"] =
      .error (.contextOverflow "Context window exceeded") :=
  ⟨rfl, rfl⟩

/-- C9 witness: the amended theorem applied to `overflowAgent`. -/
theorem client_errors_always_propagate_witness :
    overflowAgent.maxTurns = 2 + 1 ∧
    overflowAgent.client.generate
        (initialMessages overflowAgent [ChatMessage.user "task"])
        overflowAgent.activeTools =
      .error (.contextOverflow "Context window exceeded") ∧
    Agent.run overflowAgent [ChatMessage.user "task"] =
      .error (.contextOverflow "Context window exceeded") :=
  ⟨rfl, rfl,
    (client_errors_always_propagate overflowAgent).2.2.2 [ChatMessage.user "task"]
      (.contextOverflow "Context window exceeded") 2 rfl rfl⟩

/-- C10: with a finish tool whose parameter schema is `null`, the finish
scan computes `undefined` parameters on every tool-call list and never
records finish parameters, so (with a client whose calls succeed) the
run never terminates via the finish signal: it proceeds to `maxTurns`
exhaustion with `finishParams` unset, executing exactly `maxTurns` turns
(one assistant message each across the returned groups, when the initial
messages contain none). -/
theorem null_schema_finish_never_terminates {PV : Type}
    {ag : Agent PV} {f : BaseTool PV} (init : List ChatMessage)
    (hft : ag.finishTool = some f) (hnull : f.parameters = none)
    (hgen : ∀ msgs tools, ∃ am, ag.client.generate msgs tools = .ok am) :
    (∀ calls, detectFinish ag.finishTool calls = none) ∧
    ∃ r, Agent.run ag init = .ok r ∧ r.finishParams = none ∧
      (countAssistant init = 0 → countAssistant r.messageHistory.flatten = ag.maxTurns) := by
  have hdetect : ∀ calls, detectFinish ag.finishTool calls = none := by
    intro calls
    rw [hft]
    exact detectFinish_eq_none_of_nullSchema f hnull calls
  have hnofin : ∀ msgs tools am, ag.client.generate msgs tools = .ok am →
      detectFinish ag.finishTool (am.toolCalls.getD []) = none :=
    fun _ _ am _ => hdetect _
  obtain ⟨st', hloop, hgrp', _, hcount⟩ := runLoop_no_finish hgen hnofin ag.maxTurns
    (initLoopState ag init) (by simp [initLoopState, initialMessages])
    ⟨buildSystemPrompt ag, rfl⟩
  have hne : st'.currentGroup.isEmpty = false := by
    simpa [List.isEmpty_iff] using hgrp'
  refine ⟨hdetect,
    { finishParams := none,
      messageHistory := st'.messageHistory ++ [st'.currentGroup],
      runMetadata := aggregateMetadata st'.runMetadata "" }, ?_, rfl, ?_⟩
  · unfold Agent.run
    rw [hloop]
    simp [Bind.bind, Except.bind, hne]
  · intro hinit
    have hinitgrp : countAssistant (initLoopState ag init).currentGroup = 0 := by
      show countAssistant (ChatMessage.system (buildSystemPrompt ag) :: init) = 0
      unfold countAssistant at hinit ⊢
      rw [List.countP_cons, hinit]
      rfl
    have hinithist : countAssistant (initLoopState ag init).messageHistory.flatten = 0 := rfl
    rw [countAssistant_flatten_append_singleton]
    rw [hinitgrp, hinithist] at hcount
    omega

/-- C10 witness: `nullFinishAgent`'s client calls `finish` every turn,
yet the run exhausts its two turns with `finishParams` unset. -/
theorem null_schema_finish_never_terminates_witness :
    nullFinishAgent.finishTool = some nullFinishTool ∧
    nullFinishTool.parameters = none ∧
    (∀ calls, detectFinish nullFinishAgent.finishTool calls = none) ∧
    ∃ r, Agent.run nullFinishAgent [ChatMessage.user "task"] = .ok r ∧
      r.finishParams = none ∧
      (countAssistant [ChatMessage.user "task"] = 0 →
        countAssistant r.messageHistory.flatten = nullFinishAgent.maxTurns) := by
  have h := @null_schema_finish_never_terminates ReasonParams nullFinishAgent nullFinishTool
    [ChatMessage.user "task"] rfl rfl (fun _ _ => ⟨_, rfl⟩)
  exact ⟨rfl, rfl, h.1, h.2⟩

end Stirrup
